import Mathlib

/-!
Shallow embedding of the ownables-cli transfer pipeline
(src/lib/commands/transfer.js and src/constants.js) and proofs about it.

File contents are modelled as lists of naturals (JS Buffer / Uint8Array
values).  A zip archive (JSZip) is modelled as its ordered list of entries,
each a name together with a directory flag and its byte content.

The JSON serialization used for chain.json and package.json goes through the
JS builtin JSON.stringify / JSON.parse, which is external to the repository;
it is modelled here by an explicit injective encoding (encodeChain /
decodeChainTop, encodePkg / decodePkgTop) whose decoder fails on bytes that
are not a well-formed encoding, exactly the contract the spec gives for
serialize / load ("fails with ChainParseError on malformed input",
"round-trips through load"); the round trip is proved below.
-/

namespace OwnablesCli

/-- Byte content of a file, JS Buffer / Uint8Array modelled as a list of naturals. -/
abbrev Bytes := List Nat

/-- One entry of a JSZip archive: its full name, whether it is a directory
entry, and its byte content. -/
structure ZipEntry where
  name : String
  dir : Bool
  content : Bytes
deriving DecidableEq, Repr

/-- A JSZip archive: the ordered collection of its entries (`zip.files`). -/
structure Zip where
  entries : List ZipEntry
deriving DecidableEq, Repr

/-- JSZip `zip.file(name)`: the file entry with exactly that name, or null;
directory entries are not returned. -/
def zipLookup (z : Zip) (name : String) : Option Bytes :=
  (z.entries.find? fun e => !e.dir && e.name == name).map ZipEntry.content

/-- JSZip `zip.file(name, data)`: replaces the entry of that name or inserts a
new one at the end, leaving every other entry untouched. -/
def zipSet (z : Zip) (name : String) (content : Bytes) : Zip :=
  if z.entries.any (fun e => e.name == name) then
    ⟨z.entries.map fun e => if e.name == name then ⟨name, false, content⟩ else e⟩
  else
    ⟨z.entries ++ [⟨name, false, content⟩]⟩

/-- An event payload as built in createEventAndChainJson
(src/lib/commands/transfer.js lines 196-202): the execute message holding the
chain id, the package CID, the network id and the keywords. -/
structure Msg where
  context : String
  ownable_id : Nat
  package : String
  network_id : String
  keywords : List String
deriving DecidableEq, Repr

/-- Modelled from the spec: the @ltonetwork/lto EventChain (spec section 4.2).
`create(identity)` yields a genesis chain with zero events; events are kept in
append order.  Event hashes are not re-modelled: the spec's chain-linkage
invariant makes every event's hash unique within a chain, so the places the
source addresses an event by its hash are modelled by the event's position. -/
structure EventChain where
  id : Nat
  events : List Msg
deriving DecidableEq, Repr

/-- Modelled from the spec: `new EventChain(account)` creates a genesis chain
with zero events; its id is derived from the account and a fresh nonce, which
the model takes as an argument. -/
def EventChain.create (nonce : Nat) : EventChain := ⟨nonce, []⟩

/-- Modelled from the spec: `new Event(msg).addTo(chain)` appends one signed
event holding the payload to the chain. -/
def EventChain.addEvent (c : EventChain) (m : Msg) : EventChain :=
  ⟨c.id, c.events ++ [m]⟩

/-- Length-prefixed encoding of a string. -/
def encodeStr (s : String) : Bytes :=
  s.length :: s.data.map Char.toNat

/-- Decoder for `encodeStr`; fails when the advertised length is not available. -/
def decodeStr : Bytes → Option (String × Bytes)
  | [] => none
  | n :: rest =>
    if n ≤ rest.length then
      some (String.mk ((rest.take n).map Char.ofNat), rest.drop n)
    else none

/-- Count-prefixed encoding of a list of strings. -/
def encodeStrs (l : List String) : Bytes :=
  l.length :: (l.map encodeStr).flatten

/-- Decoder for a known number of consecutive `encodeStr` blocks. -/
def decodeStrs : Nat → Bytes → Option (List String × Bytes)
  | 0, b => some ([], b)
  | n + 1, b => do
    let (s, b1) ← decodeStr b
    let (ss, b2) ← decodeStrs n b1
    some (s :: ss, b2)

/-- Modelled from the spec: the universe of JSON values, as a minimal text
model with numbers, strings and arrays; objects are rendered as positional
arrays.  This distinguishes the two failure modes of chain loading the
source has: bytes that are not JSON at all (JSON.parse throws, which
extractMetadata catches) and JSON that is not a serialized chain
(EventChain.from fails later, uncaught). -/
inductive Json where
  | num (n : Nat)
  | str (s : String)
  | arr (elems : List Json)

/-- Byte grammar of a JSON value: tag 0 a number, tag 1 a length-prefixed
string, tag 2 a count-prefixed array of values. -/
def encodeJsonNum (n : Nat) : Bytes := [0, n]

/-- String value under the JSON byte grammar. -/
def encodeStrJson (s : String) : Bytes := 1 :: encodeStr s

/-- Array of string values under the JSON byte grammar. -/
def encodeStrsJson (l : List String) : Bytes :=
  2 :: l.length :: (l.map encodeStrJson).flatten

/-- Decoder for `count` consecutive JSON values, fuelled: every recursive
call consumes at least one byte, so fuel exceeding the byte length never
runs out (the `jsonParse` wrapper supplies it). -/
def decodeJsonsF : Nat → Nat → Bytes → Option (List Json × Bytes)
  | 0, _, _ => none
  | _ + 1, 0, b => some ([], b)
  | fuel + 1, n + 1, b =>
    match b with
    | 0 :: m :: rest =>
      (decodeJsonsF fuel n rest).map fun p => (Json.num m :: p.1, p.2)
    | 1 :: rest =>
      match decodeStr rest with
      | none => none
      | some (s, rest2) =>
        (decodeJsonsF fuel n rest2).map fun p => (Json.str s :: p.1, p.2)
    | 2 :: cnt :: rest =>
      match decodeJsonsF fuel cnt rest with
      | none => none
      | some (elems, rest2) =>
        match decodeJsonsF fuel n rest2 with
        | none => none
        | some (tail, rest3) => some (Json.arr elems :: tail, rest3)
    | _ => none

/-- Modelled from the spec: the JS builtin JSON.parse on chain.json bytes;
yields the parsed value exactly when the bytes are one complete well-formed
JSON value, and fails otherwise. -/
def jsonParse (b : Bytes) : Option Json :=
  match decodeJsonsF (b.length + 1) 1 b with
  | some ([j], []) => some j
  | _ => none

/-- JSON rendering of one event payload: a positional array of the five
fields. -/
def msgToJson (m : Msg) : Json :=
  Json.arr [Json.str m.context, Json.num m.ownable_id, Json.str m.package,
    Json.str m.network_id, Json.arr (m.keywords.map Json.str)]

/-- JSON rendering of an event chain: its id together with its event list. -/
def chainToJson (c : EventChain) : Json :=
  Json.arr [Json.num c.id, Json.arr (c.events.map msgToJson)]

/-- JSON byte encoding of one event payload (the bytes `msgToJson` denotes). -/
def encodeMsgJson (m : Msg) : Bytes :=
  2 :: 5 :: (encodeStrJson m.context ++ 0 :: m.ownable_id ::
    (encodeStrJson m.package ++ encodeStrJson m.network_id ++
      encodeStrsJson m.keywords))

/-- Modelled from the spec: JSON.stringify of an EventChain, the chain.json
serialization (spec section 4.2 serialize); the bytes of `chainToJson`. -/
def encodeChain (c : EventChain) : Bytes :=
  2 :: 2 :: 0 :: c.id :: 2 :: c.events.length ::
    (c.events.map encodeMsgJson).flatten

/-- Reads back a JSON array of strings. -/
def strsFromJson : List Json → Option (List String)
  | [] => some []
  | Json.str s :: rest => (strsFromJson rest).map fun l => s :: l
  | _ => none

/-- Reads back one event payload from its JSON value. -/
def msgFromJson : Json → Option Msg
  | Json.arr [Json.str c, Json.num o, Json.str p, Json.str nid,
      Json.arr kws] =>
    (strsFromJson kws).map fun kw => ⟨c, o, p, nid, kw⟩
  | _ => none

/-- Reads back a list of event payloads from their JSON values. -/
def msgsFromJson : List Json → Option (List Msg)
  | [] => some []
  | j :: rest => do
    let m ← msgFromJson j
    let ms ← msgsFromJson rest
    some (m :: ms)

/-- Modelled from the spec: EventChain.from on a parsed JSON value (spec
section 4.2 load); fails - the ChainParseError - when the value is not a
serialized chain.  The source calls it inside createEventAndChainJson with
no surrounding catch. -/
def chainFromJson : Json → Option EventChain
  | Json.arr [Json.num i, Json.arr evs] =>
    (msgsFromJson evs).map fun es => ⟨i, es⟩
  | _ => none

/-- The full chain loader, JSON.parse followed by EventChain.from. -/
def decodeChainTop (b : Bytes) : Option EventChain :=
  (jsonParse b).bind chainFromJson

/-- Fuel sufficient to decode a list of encoded event payloads; each payload
costs its keyword count plus a constant, a bound its byte length dominates. -/
def msgsFuel : List Msg → Nat
  | [] => 0
  | m :: ms => m.keywords.length + 7 + msgsFuel ms

/-- The fields of package.json the transfer command reads
(src/lib/commands/transfer.js lines 164-171); each may be absent. -/
structure PkgJson where
  name : Option String
  description : Option String
  keywords : Option (List String)
deriving DecidableEq, Repr

/-- Encoding of an optional string (present / absent tag). -/
def encodeOptStr : Option String → Bytes
  | none => [0]
  | some s => 1 :: encodeStr s

/-- Decoder for `encodeOptStr`. -/
def decodeOptStr : Bytes → Option (Option String × Bytes)
  | 0 :: b => some (none, b)
  | 1 :: b => (decodeStr b).map fun p => (some p.1, p.2)
  | _ => none

/-- Encoding of an optional string list (present / absent tag). -/
def encodeOptStrs : Option (List String) → Bytes
  | none => [0]
  | some l => 1 :: encodeStrs l

/-- Decoder for `encodeOptStrs`. -/
def decodeOptStrs : Bytes → Option (Option (List String) × Bytes)
  | 0 :: b => some (none, b)
  | 1 :: n :: b => (decodeStrs n b).map fun p => (some p.1, p.2)
  | _ => none

/-- Modelled from the spec: JSON.stringify of a package.json manifest. -/
def encodePkg (p : PkgJson) : Bytes :=
  encodeOptStr p.name ++ encodeOptStr p.description ++ encodeOptStrs p.keywords

/-- Modelled from the spec: JSON.parse of package.json bytes; fails on
malformed input ("Invalid JSON in package.json"). -/
def decodePkgTop (b : Bytes) : Option PkgJson :=
  match decodeOptStr b with
  | none => none
  | some (n, b1) =>
    match decodeOptStr b1 with
    | none => none
    | some (d, b2) =>
      match decodeOptStrs b2 with
      | some (k, []) => some ⟨n, d, k⟩
      | _ => none

/-- JS String.prototype.endsWith, computed over the character list. -/
def strEndsWith (s post : String) : Bool := post.data.isSuffixOf s.data

/-- JS String.prototype.startsWith, computed over the character list. -/
def strStartsWith (s pre : String) : Bool := pre.data.isPrefixOf s.data

/-- JS String.prototype.includes for a single character. -/
def strContainsChar (s : String) (c : Char) : Bool := s.data.contains c

/-- JS String.prototype.slice(0, -1): the string without its final character. -/
def strDropLast (s : String) : String := ⟨s.data.dropLast⟩

/-- JS String.prototype.toLowerCase, character by character. -/
def strToLower (s : String) : String := ⟨s.data.map Char.toLower⟩

/-- Characters after the last slash of a path, accumulating the current
segment in reverse. -/
def basenameData : List Char → List Char → List Char
  | seg, [] => seg.reverse
  | _, '/' :: rest => basenameData [] rest
  | seg, c :: rest => basenameData (c :: seg) rest

/-- Node `path.basename` restricted to zip entry paths: the portion after the
last slash, a single trailing slash stripped first. -/
def basename (p : String) : String :=
  let q := if strEndsWith p "/" then strDropLast p else p
  ⟨basenameData [] q.data⟩

/-- A token of the regular expression that shouldExclude builds from a glob
pattern: after escaping dots, a star becomes "match anything", a question mark
becomes "match one character", and every other character matches itself. -/
inductive GlobTok where
  | lit (c : Char)
  | star
  | anyOne
deriving DecidableEq, Repr

/-- Token list of the regex `shouldExclude` builds from a glob pattern
(src/lib/commands/transfer.js lines 931-940): dots are escaped to literals,
each `*` becomes `.*` and each `?` becomes `.`; other characters are literal
(characters that are regex metacharacters other than `.` `*` `?` are not
escaped by the source either, and none occur in the patterns it is used with). -/
def globToTokens (pattern : String) : List GlobTok :=
  pattern.data.map fun c =>
    if c = '*' then GlobTok.star
    else if c = '?' then GlobTok.anyOne
    else GlobTok.lit c

/-- Anchored matching of a glob token list against a character list, the
semantics of the `^...$` regex test in `shouldExclude`: a `.*` token consumes
an arbitrary prefix, so it matches when the rest of the tokens match some
suffix of the remaining characters. -/
def globMatch : List GlobTok → List Char → Bool
  | [], cs => cs.isEmpty
  | GlobTok.lit c :: ts, cs =>
    match cs with
    | [] => false
    | x :: xs => c == x && globMatch ts xs
  | GlobTok.anyOne :: ts, cs =>
    match cs with
    | [] => false
    | _ :: xs => globMatch ts xs
  | GlobTok.star :: ts, cs => cs.tails.any fun suffix => globMatch ts suffix

/-- The pattern matcher of the CID calculator (src/lib/commands/transfer.js
lines 923-951): a path is excluded when some pattern matches it — dotfile
basenames under the `.*` pattern, glob patterns via the built regex, directory
patterns by their prefix, and otherwise an exact full-path or basename match. -/
def shouldExclude (filePath : String) (patterns : List String) : Bool :=
  patterns.any fun pattern =>
    if pattern == ".*" && strStartsWith (basename filePath) "." then
      true
    else if strContainsChar pattern '*' then
      globMatch (globToTokens pattern) filePath.data
    else if strEndsWith pattern "/" then
      strStartsWith filePath pattern || filePath == strDropLast pattern
    else
      filePath == pattern || basename filePath == pattern

/-- The exclusion patterns calculateZipCID uses
(src/lib/commands/transfer.js line 859). -/
def excludePatterns : List String := ["chain.json", ".*"]

/-- The file list calculateZipCID feeds to the importer
(src/lib/commands/transfer.js lines 862-870): every non-directory entry not
excluded by the patterns, path-prefixed under the `./package/` virtual root. -/
def cidFiles (z : Zip) : List (String × Bytes) :=
  (z.entries.filter fun e => !e.dir && !shouldExclude e.name excludePatterns).map
    fun e => ("./package/" ++ e.name, e.content)

/-- Modelled from the spec: the external ipfs-unixfs-importer merkle
structuring over a hash-only blockstore.  The spec states the resulting
identifier is a deterministic function of exactly the included entries' paths
and bytes, independent of iteration order (paths are sorted before
structuring); the identifier is therefore modelled as the canonical
order-independent value determined by that data, the finite multiset of
(path, bytes) pairs. -/
def importerCID (files : List (String × Bytes)) : Multiset (String × Bytes) :=
  (files : Multiset (String × Bytes))

/-- The CID calculator over a zip archive (src/lib/commands/transfer.js
lines 851-920): filter out volatile entries, fail when nothing remains, and
hand the remaining files to the importer.  In the model the importer does not
fail, so the source's one-shot fallback configuration path is never taken. -/
def calculateZipCID (z : Zip) : Except String (Multiset (String × Bytes)) :=
  let files := cidFiles z
  if files.length = 0 then
    Except.error "No files found to process after filtering"
  else
    Except.ok (importerCID files)

/-- JS `a || b` for an optional string field of a parsed JSON object: an
absent field and the empty string are falsy, any other string is kept. -/
def jsOrStr (v : Option String) (dflt : String) : String :=
  match v with
  | none => dflt
  | some s => if s = "" then dflt else s

/-- JS `a || b` for an optional array field: an absent field is falsy, any
present array (empty included) is truthy and kept. -/
def jsOrList (v : Option (List String)) (dflt : List String) : List String :=
  match v with
  | none => dflt
  | some l => l

/-- The 256 KiB thumbnail budget (src/lib/commands/transfer.js line 122). -/
def thumbnailBudget : Nat := 256 * 1024

/-- The thumbnail quality ladder of extractMetadata
(src/lib/commands/transfer.js lines 107-161).  `enc q` models the external
sharp pipeline (webp at quality q, resize to 50x50) applied to the thumbnail
bytes, returning the encoded bytes or failing; any failure is caught and
yields no thumbnail.  The quality-80 result is kept when within budget,
otherwise the quality-60 result when within budget, otherwise the quality-40
result without any size check. -/
def processThumbnail (enc : Nat → Option Bytes) : Option Bytes :=
  match enc 80 with
  | none => none
  | some p80 =>
    if p80.length > thumbnailBudget then
      match enc 60 with
      | none => none
      | some p60 =>
        if p60.length > thumbnailBudget then
          match enc 40 with
          | none => none
          | some p40 => some p40
        else some p60
    else some p80

/-- The record extractMetadata returns (src/lib/commands/transfer.js
lines 164-171). -/
structure Metadata where
  title : String
  description : String
  keywords : List String
  thumbnail : Option Bytes
  existingChain : Option Json

/-- extractMetadata (src/lib/commands/transfer.js lines 53-172).  `sharpEnc`
models the external sharp pipeline on given input bytes at a given quality.
The package.json entry is looked up by exact name first; when absent, a
case-insensitive search runs, but on success the source assigns the found
entry to the `const packageJsonFile` binding, which throws a TypeError at
run time.  Only the JSON.parse of a chain.json entry sits inside a
try/catch: when it fails a warning is logged and the chain state is treated
as absent; the parsed JSON value itself is kept as is, and only later does
createEventAndChainJson hand it to EventChain.from, outside any catch.
Thumbnail processing failures are caught and drop the thumbnail. -/
def extractMetadata (z : Zip) (sharpEnc : Bytes → Nat → Option Bytes) :
    Except String Metadata :=
  let pkgBytes : Except String Bytes :=
    match zipLookup z "package.json" with
    | some b => Except.ok b
    | none =>
      match z.entries.find? (fun e => strToLower e.name == "package.json") with
      | some _ => Except.error "TypeError: Assignment to constant variable."
      | none => Except.error "ZIP does not contain package.json"
  match pkgBytes with
  | Except.error e => Except.error e
  | Except.ok b =>
    match decodePkgTop b with
    | none => Except.error "Invalid JSON in package.json"
    | some pkgJson =>
      let existingChain : Option Json :=
        match zipLookup z "chain.json" with
        | none => none
        | some cb => jsonParse cb
      let thumbnail : Option Bytes :=
        match zipLookup z "thumbnail.webp" with
        | none => none
        | some tb => processThumbnail (sharpEnc tb)
      Except.ok
        { title := jsOrStr pkgJson.name "Ownable"
          description := jsOrStr pkgJson.description ""
          keywords := jsOrList pkgJson.keywords []
          thumbnail := thumbnail
          existingChain := existingChain }

/-- findZipFile (src/lib/commands/transfer.js lines 27-36): the first
directory entry whose name ends in ".zip", joined to the working directory;
an error when there is none. -/
def findZipFile (cwd : String) (files : List String) : Except String String :=
  match files.find? (fun f => strEndsWith f ".zip") with
  | none => Except.error "No ZIP file found in current directory"
  | some f => Except.ok (cwd ++ "/" ++ f)

/-- LTO_FEE (src/constants.js): the JS number 0.5 is exactly the rational
1 / 2, and for the balance comparison the float arithmetic the source performs
coincides with exact rational arithmetic. -/
def LTO_FEE : ℚ := 1 / 2

/-- addChainJsonToZip (src/lib/commands/transfer.js lines 243-246): serialize
the chain into the chain.json entry of the in-memory archive; the regenerated
archive bytes are modelled by the updated archive value itself. -/
def addChainJsonToZip (z : Zip) (chainJson : EventChain) : Zip :=
  zipSet z "chain.json" (encodeChain chainJson)

/-- What one createEventAndChainJson call produces and does: the serialized
chain it returns, how many anchoring transactions it submitted, and how many
anchors they carried. -/
structure IterOut where
  chainJson : EventChain
  anchorCalls : Nat
  anchorsCount : Nat
deriving DecidableEq, Repr

/-- createEventAndChainJson (src/lib/commands/transfer.js lines 174-241).
An existing chain is loaded with EventChain.from, whose failure on a JSON
value that is not a serialized chain is not caught anywhere in the call
chain; otherwise a fresh chain with zero events is created.  Exactly one
event holding the execute message is appended.  With an
existing chain the anchors are the events strictly after the second-to-last
event (read via its hash, modelled by its position; when the loaded chain had
no events that JS indexing throws).  Without one they are the sub-chain
starting with the latest event's hash.  A non-empty anchor list is submitted
in one anchoring transaction, modelled as succeeding.  The package CID the
message embeds is recomputed per call by the external IPFS client from the
on-disk archive, which the run never rewrites, so it is a constant of the
run, passed in as `packageCID`. -/
def createEventAndChainJson (nonce : Nat) (packageCID networkId : String)
    (keywords : List String) (existingChain : Option Json) :
    Except String IterOut :=
  match existingChain with
  | none =>
    let chain := EventChain.create nonce
    let msg : Msg :=
      { context := "execute_msg.json"
        ownable_id := chain.id
        package := packageCID
        network_id := networkId
        keywords := keywords }
    let chain2 := chain.addEvent msg
    let anchors := chain2.events.drop (chain2.events.length - 1)
    Except.ok ⟨chain2, if anchors.length > 0 then 1 else 0, anchors.length⟩
  | some j =>
    match chainFromJson j with
    | none => Except.error "ChainParseError"
    | some c =>
      let msg : Msg :=
        { context := "execute_msg.json"
          ownable_id := c.id
          package := packageCID
          network_id := networkId
          keywords := keywords }
      let chain2 := c.addEvent msg
      if chain2.events.length < 2 then
        Except.error "TypeError: Cannot read properties of undefined"
      else
        let anchors := chain2.events.drop (chain2.events.length - 1)
        Except.ok ⟨chain2, if anchors.length > 0 then 1 else 0, anchors.length⟩

/-- The validated configuration and external-world values of one transfer run:
the directory listing, the archive bytes at the found path, the sharp
pipeline, the prompt answers, the balance reported for the signing account,
the chain id nonce the library would draw at each iteration, and the CID the
external IPFS client computes for the on-disk archive. -/
structure Config where
  cwd : String
  cwdFiles : List String
  zip : Zip
  sharpEnc : Bytes → Nat → Option Bytes
  recipient : String
  networkId : String
  transferCount : Nat
  balance : ℚ
  relayNonempty : Bool
  chainNonce : Nat → Nat
  packageCID : String

/-- Observable outcome of a transfer run: whether the insufficient-balance
path returned early, the chain serializations persisted into the package (one
per completed iteration, in order), the totals of anchoring transactions,
anchors and relay deliveries, the thumbnail attached to the delivered
messages, and the final in-memory archive. -/
structure Trace where
  insufficientBalance : Bool
  persisted : List EventChain
  anchorCalls : Nat
  anchorsSubmitted : Nat
  deliveryCalls : Nat
  thumbnail : Option Bytes
  finalZip : Zip
deriving DecidableEq, Repr

/-- One iteration of the transfer loop (src/lib/commands/transfer.js
lines 378-435): create the event and chain serialization from the chain state
extracted at startup, write chain.json into the in-memory archive, and send
the message over the relay when a relay URL is set (delivery modelled as
succeeding). -/
def stepIter (cfg : Config) (md : Metadata) (i : Nat) (t : Trace) :
    Except String Trace :=
  match createEventAndChainJson (cfg.chainNonce i) cfg.packageCID cfg.networkId
      md.keywords md.existingChain with
  | Except.error e => Except.error e
  | Except.ok out =>
    Except.ok
      { t with
        persisted := t.persisted ++ [out.chainJson]
        anchorCalls := t.anchorCalls + out.anchorCalls
        anchorsSubmitted := t.anchorsSubmitted + out.anchorsCount
        deliveryCalls := t.deliveryCalls + (if cfg.relayNonempty then 1 else 0)
        finalZip := addChainJsonToZip t.finalZip out.chainJson }

/-- The transfer loop, `fuel` iterations starting at index `i`. -/
def runFrom (cfg : Config) (md : Metadata) : Nat → Nat → Trace → Except String Trace
  | _, 0, t => Except.ok t
  | i, n + 1, t =>
    match stepIter cfg md i t with
    | Except.error e => Except.error e
    | Except.ok t1 => runFrom cfg md (i + 1) n t1

/-- transfer (src/lib/commands/transfer.js lines 286-442): find the archive,
extract the metadata, then check the balance — when it is below
transferCount * LTO_FEE the function reports the insufficiency and returns
before the loop — and otherwise run the per-transfer loop. -/
def transfer (cfg : Config) : Except String Trace :=
  match findZipFile cfg.cwd cfg.cwdFiles with
  | Except.error e => Except.error e
  | Except.ok _ =>
    match extractMetadata cfg.zip cfg.sharpEnc with
    | Except.error e => Except.error e
    | Except.ok md =>
      if cfg.balance < (cfg.transferCount : ℚ) * LTO_FEE then
        Except.ok
          { insufficientBalance := true, persisted := [], anchorCalls := 0
            anchorsSubmitted := 0, deliveryCalls := 0, thumbnail := md.thumbnail
            finalZip := cfg.zip }
      else
        runFrom cfg md 0 cfg.transferCount
          { insufficientBalance := false, persisted := [], anchorCalls := 0
            anchorsSubmitted := 0, deliveryCalls := 0, thumbnail := md.thumbnail
            finalZip := cfg.zip }

/-- Events of the chain state extracted at startup: the events
EventChain.from reads out of the retained JSON value, and none when the
package had no JSON-parseable chain.json (when EventChain.from itself fails
the run aborts, so that value is never consulted by a successful run). -/
def initialEvents : Option Json → List Msg
  | none => []
  | some j =>
    match chainFromJson j with
    | none => []
    | some c => c.events

/-- Serialized manifest with name "demo" and no description or keywords
fields, the Scenario A manifest. -/
def pkgDemoBytes : Bytes := encodePkg ⟨some "demo", none, none⟩

/-- A package holding only the demo manifest: no chain.json, no thumbnail. -/
def demoZip : Zip := ⟨[⟨"package.json", false, pkgDemoBytes⟩]⟩

/-- Scenario A configuration: the demo package, one requested transfer, a
relay URL set, and a sufficient balance. -/
def cfgA : Config :=
  { cwd := "/work", cwdFiles := ["demo.zip"], zip := demoZip,
    sharpEnc := fun _ _ => none, recipient := "3N-recipient", networkId := "T",
    transferCount := 1, balance := 1, relayNonempty := true,
    chainNonce := fun i => i, packageCID := "bafy-demo" }

/-- Metadata the demo package extracts to. -/
def mdA : Metadata := ⟨"demo", "", [], none, none⟩

/-- The chain Scenario A produces: one event on the fresh chain of nonce 0. -/
def chainA : EventChain := ⟨0, [⟨"execute_msg.json", 0, "bafy-demo", "T", []⟩]⟩

/-- The trace of the Scenario A run. -/
def traceA : Trace :=
  ⟨false, [chainA], 1, 1, 1, none,
    ⟨[⟨"package.json", false, pkgDemoBytes⟩,
      ⟨"chain.json", false, encodeChain chainA⟩]⟩⟩

/-- Scenario A configuration but with two requested transfers. -/
def cfgB : Config := { cfgA with transferCount := 2 }

/-- The chain the second iteration of the two-transfer run produces: one event
on the fresh chain of nonce 1. -/
def chainB : EventChain := ⟨1, [⟨"execute_msg.json", 1, "bafy-demo", "T", []⟩]⟩

/-- The trace of the two-transfer run. -/
def traceB : Trace :=
  ⟨false, [chainA, chainB], 2, 2, 2, none,
    ⟨[⟨"package.json", false, pkgDemoBytes⟩,
      ⟨"chain.json", false, encodeChain chainB⟩]⟩⟩

/-- Thumbnail encoder output one byte over the 256 KiB budget. -/
def bigBytes : Bytes := List.replicate (256 * 1024 + 1) 0

/-- The demo package with a thumbnail entry. -/
def zipC5 : Zip :=
  ⟨[⟨"package.json", false, pkgDemoBytes⟩, ⟨"thumbnail.webp", false, [0]⟩]⟩

/-- A sharp pipeline whose output exceeds the budget at every quality. -/
def sharpBig : Bytes → Nat → Option Bytes := fun _ _ => some bigBytes

/-- Scenario A configuration with a zero balance. -/
def cfg6 : Config := { cfgA with balance := 0 }

/-- The trace of the zero-balance run: the insufficiency is reported and
nothing else happens. -/
def t6 : Trace := ⟨true, [], 0, 0, 0, none, demoZip⟩

/-- An event chain with no events, for repackaging inputs. -/
def chainZero : EventChain := ⟨0, []⟩

/-- A package whose manifest entry carries a case-variant name. -/
def zipC9 : Zip := ⟨[⟨"Package.json", false, pkgDemoBytes⟩]⟩

/-- A package whose manifest parses but has none of the optional fields. -/
def zipC10 : Zip := ⟨[⟨"package.json", false, encodePkg ⟨none, none, none⟩⟩]⟩

theorem decodeStr_encodeStr (s : String) (r : Bytes) :
    decodeStr (encodeStr s ++ r) = some (s, r) := by
  have hlen : (s.data.map Char.toNat).length = s.length := by
    rw [List.length_map]
    rfl
  have hle : s.length ≤ (s.data.map Char.toNat ++ r).length := by
    rw [List.length_append, hlen]
    exact Nat.le_add_right _ _
  have h1 : ((s.data.map Char.toNat ++ r).take s.length).map Char.ofNat = s.data := by
    rw [← hlen, List.take_left, List.map_map]
    have hco : Char.ofNat ∘ Char.toNat = id := funext Char.ofNat_toNat
    rw [hco, List.map_id]
  have h2 : (s.data.map Char.toNat ++ r).drop s.length = r := by
    rw [← hlen, List.drop_left]
  have e1 : encodeStr s ++ r = s.length :: (s.data.map Char.toNat ++ r) := by
    simp [encodeStr]
  rw [e1]
  simp only [decodeStr]
  rw [if_pos hle, h1, h2]

theorem decodeStrs_encode (l : List String) (r : Bytes) :
    decodeStrs l.length ((l.map encodeStr).flatten ++ r) = some (l, r) := by
  induction l generalizing r with
  | nil => simp [decodeStrs]
  | cons x xs ih =>
    simp [decodeStrs, List.append_assoc, decodeStr_encodeStr, ih]

theorem length_encodeStr (s : String) : (encodeStr s).length = s.length + 1 := by
  show (s.length :: s.data.map Char.toNat).length = s.length + 1
  rw [List.length_cons, List.length_map]
  rfl

theorem length_encodeStrJson (s : String) :
    (encodeStrJson s).length = s.length + 2 := by
  show (1 :: encodeStr s).length = s.length + 2
  rw [List.length_cons, length_encodeStr]

theorem length_strsFlat_ge (l : List String) :
    l.length ≤ ((l.map encodeStrJson).flatten).length := by
  induction l with
  | nil => simp
  | cons x xs ih =>
    simp only [List.map_cons, List.flatten_cons, List.length_append,
      List.length_cons, length_encodeStrJson]
    omega

theorem decodeJsonsF_zero (fuel : Nat) (h : 0 < fuel) (b : Bytes) :
    decodeJsonsF fuel 0 b = some ([], b) := by
  cases fuel with
  | zero => omega
  | succ f => rfl

theorem valEnc_num (m fuel n : Nat) (k : Bytes) (hf : 0 < fuel) (hn : 0 < n) :
    decodeJsonsF fuel n (0 :: m :: k)
      = (decodeJsonsF (fuel - 1) (n - 1) k).map
          fun p => (Json.num m :: p.1, p.2) := by
  cases fuel with
  | zero => omega
  | succ f =>
    cases n with
    | zero => omega
    | succ n1 =>
      simp only [decodeJsonsF, Nat.add_sub_cancel]

theorem valEnc_str (s : String) (fuel n : Nat) (k : Bytes) (hf : 0 < fuel)
    (hn : 0 < n) :
    decodeJsonsF fuel n (encodeStrJson s ++ k)
      = (decodeJsonsF (fuel - 1) (n - 1) k).map
          fun p => (Json.str s :: p.1, p.2) := by
  cases fuel with
  | zero => omega
  | succ f =>
    cases n with
    | zero => omega
    | succ n1 =>
      show decodeJsonsF (f + 1) (n1 + 1) (1 :: (encodeStr s ++ k)) = _
      simp only [decodeJsonsF, decodeStr_encodeStr, Nat.add_sub_cancel]

theorem valEnc_arr (fuel n cnt : Nat) (inner k : Bytes) (elems : List Json)
    (hf : 0 < fuel) (hn : 0 < n)
    (hin : decodeJsonsF (fuel - 1) cnt (inner ++ k) = some (elems, k)) :
    decodeJsonsF fuel n (2 :: cnt :: (inner ++ k))
      = (decodeJsonsF (fuel - 1) (n - 1) k).map
          fun p => (Json.arr elems :: p.1, p.2) := by
  cases fuel with
  | zero => omega
  | succ f =>
    cases n with
    | zero => omega
    | succ n1 =>
      rw [Nat.add_sub_cancel] at hin
      simp only [decodeJsonsF, hin, Nat.add_sub_cancel]
      cases hk : decodeJsonsF f n1 k with
      | none => rfl
      | some p =>
        cases p with
        | mk a b => rfl

theorem decodeJsonsF_strList (l : List String) :
    ∀ (k : Bytes) (fuel : Nat), l.length < fuel →
    decodeJsonsF fuel l.length ((l.map encodeStrJson).flatten ++ k)
      = some (l.map Json.str, k) := by
  induction l with
  | nil =>
    intro k fuel h
    simpa using decodeJsonsF_zero fuel h k
  | cons x xs ih =>
    intro k fuel h
    simp only [List.length_cons] at h
    have hb : (((x :: xs).map encodeStrJson).flatten ++ k)
        = encodeStrJson x ++ ((xs.map encodeStrJson).flatten ++ k) := by
      simp
    rw [show (x :: xs).length = xs.length + 1 from rfl, hb,
      valEnc_str x fuel (xs.length + 1) _ (by omega) (by omega),
      Nat.add_sub_cancel, ih _ (fuel - 1) (by omega)]
    rfl

theorem decodeJsonsF_msgFields (m : Msg) (k : Bytes) (fuel : Nat)
    (h : m.keywords.length + 5 < fuel) :
    decodeJsonsF fuel 5 ((encodeStrJson m.context ++ 0 :: m.ownable_id ::
      (encodeStrJson m.package ++ encodeStrJson m.network_id ++
        encodeStrsJson m.keywords)) ++ k)
      = some ([Json.str m.context, Json.num m.ownable_id,
          Json.str m.package, Json.str m.network_id,
          Json.arr (m.keywords.map Json.str)], k) := by
  have hb : (encodeStrJson m.context ++ 0 :: m.ownable_id ::
      (encodeStrJson m.package ++ encodeStrJson m.network_id ++
        encodeStrsJson m.keywords)) ++ k
      = encodeStrJson m.context ++ (0 :: m.ownable_id ::
        (encodeStrJson m.package ++ (encodeStrJson m.network_id ++
          (encodeStrsJson m.keywords ++ k)))) := by
    simp [List.append_assoc]
  rw [hb, valEnc_str m.context fuel 5 _ (by omega) (by omega),
    valEnc_num m.ownable_id (fuel - 1) (5 - 1) _ (by omega) (by omega),
    valEnc_str m.package (fuel - 1 - 1) (5 - 1 - 1) _ (by omega) (by omega),
    valEnc_str m.network_id (fuel - 1 - 1 - 1) (5 - 1 - 1 - 1) _ (by omega)
      (by omega),
    show encodeStrsJson m.keywords ++ k
      = 2 :: m.keywords.length :: ((m.keywords.map encodeStrJson).flatten ++ k)
      from by simp [encodeStrsJson],
    valEnc_arr (fuel - 1 - 1 - 1 - 1) (5 - 1 - 1 - 1 - 1) m.keywords.length _ k
      _ (by omega) (by omega)
      (decodeJsonsF_strList m.keywords k (fuel - 1 - 1 - 1 - 1 - 1) (by omega)),
    decodeJsonsF_zero (fuel - 1 - 1 - 1 - 1 - 1) (by omega) k]
  rfl

theorem valEnc_msg (m : Msg) (fuel n : Nat) (k : Bytes)
    (hf : m.keywords.length + 6 < fuel) (hn : 0 < n) :
    decodeJsonsF fuel n (encodeMsgJson m ++ k)
      = (decodeJsonsF (fuel - 1) (n - 1) k).map
          fun p => (msgToJson m :: p.1, p.2) := by
  have hin := decodeJsonsF_msgFields m k (fuel - 1) (by omega)
  have harr := valEnc_arr fuel n 5
    (encodeStrJson m.context ++ 0 :: m.ownable_id ::
      (encodeStrJson m.package ++ encodeStrJson m.network_id ++
        encodeStrsJson m.keywords)) k
    [Json.str m.context, Json.num m.ownable_id, Json.str m.package,
      Json.str m.network_id, Json.arr (m.keywords.map Json.str)]
    (by omega) hn hin
  exact harr

theorem decodeJsonsF_msgList (l : List Msg) :
    ∀ (k : Bytes) (fuel : Nat), msgsFuel l < fuel →
    decodeJsonsF fuel l.length ((l.map encodeMsgJson).flatten ++ k)
      = some (l.map msgToJson, k) := by
  induction l with
  | nil =>
    intro k fuel h
    simpa using decodeJsonsF_zero fuel h k
  | cons m ms ih =>
    intro k fuel h
    simp only [msgsFuel] at h
    have hb : (((m :: ms).map encodeMsgJson).flatten ++ k)
        = encodeMsgJson m ++ (((ms.map encodeMsgJson).flatten) ++ k) := by
      simp
    rw [show (m :: ms).length = ms.length + 1 from rfl, hb,
      valEnc_msg m fuel (ms.length + 1) _ (by omega) (by omega),
      Nat.add_sub_cancel, ih _ (fuel - 1) (by omega)]
    rfl

theorem length_msgsFlat_ge (l : List Msg) :
    msgsFuel l ≤ ((l.map encodeMsgJson).flatten).length := by
  induction l with
  | nil => simp [msgsFuel]
  | cons m ms ih =>
    have hm : m.keywords.length + 7 ≤ (encodeMsgJson m).length := by
      have hkw := length_strsFlat_ge m.keywords
      show m.keywords.length + 7 ≤ (2 :: 5 :: (encodeStrJson m.context ++
        0 :: m.ownable_id :: (encodeStrJson m.package ++
          encodeStrJson m.network_id ++ encodeStrsJson m.keywords))).length
      simp only [List.length_cons, List.length_append, length_encodeStrJson,
        encodeStrsJson]
      omega
    simp only [msgsFuel, List.map_cons, List.flatten_cons, List.length_append]
    omega

theorem valEnc_arrEnd (fuel n cnt : Nat) (inner : Bytes) (elems : List Json)
    (hf : 0 < fuel) (hn : 0 < n)
    (hin : decodeJsonsF (fuel - 1) cnt inner = some (elems, [])) :
    decodeJsonsF fuel n (2 :: cnt :: inner)
      = (decodeJsonsF (fuel - 1) (n - 1) []).map
          fun p => (Json.arr elems :: p.1, p.2) := by
  cases fuel with
  | zero => omega
  | succ f =>
    cases n with
    | zero => omega
    | succ n1 =>
      rw [Nat.add_sub_cancel] at hin
      simp only [decodeJsonsF, hin, Nat.add_sub_cancel]
      cases hk : decodeJsonsF f n1 [] with
      | none => rfl
      | some p =>
        cases p with
        | mk a b => rfl

theorem jsonParse_encodeChain (c : EventChain) :
    jsonParse (encodeChain c) = some (chainToJson c) := by
  have hflat := length_msgsFlat_ge c.events
  have hlen : (encodeChain c).length
      = ((c.events.map encodeMsgJson).flatten).length + 6 := by
    show (2 :: 2 :: 0 :: c.id :: 2 :: c.events.length ::
      (c.events.map encodeMsgJson).flatten).length = _
    simp
  have hmsgs : decodeJsonsF ((encodeChain c).length + 1 - 1 - 1 - 1)
      c.events.length ((c.events.map encodeMsgJson).flatten)
      = some (c.events.map msgToJson, []) := by
    have h := decodeJsonsF_msgList c.events []
      ((encodeChain c).length + 1 - 1 - 1 - 1) (by omega)
    rwa [List.append_nil] at h
  have hin : decodeJsonsF ((encodeChain c).length + 1 - 1) 2
      (0 :: c.id :: 2 :: c.events.length ::
        (c.events.map encodeMsgJson).flatten)
      = some ([Json.num c.id, Json.arr (c.events.map msgToJson)], []) := by
    rw [valEnc_num c.id ((encodeChain c).length + 1 - 1) 2 _
        (by omega) (by omega),
      valEnc_arrEnd ((encodeChain c).length + 1 - 1 - 1) (2 - 1)
        c.events.length ((c.events.map encodeMsgJson).flatten)
        (c.events.map msgToJson) (by omega) (by omega) hmsgs,
      decodeJsonsF_zero ((encodeChain c).length + 1 - 1 - 1 - 1)
        (by omega) []]
    rfl
  unfold jsonParse
  show (match decodeJsonsF ((encodeChain c).length + 1) 1
      (2 :: 2 :: (0 :: c.id :: 2 :: c.events.length ::
        (c.events.map encodeMsgJson).flatten)) with
    | some ([j], []) => some j
    | _ => none) = some (chainToJson c)
  rw [valEnc_arrEnd ((encodeChain c).length + 1) 1 2
    (0 :: c.id :: 2 :: c.events.length ::
      (c.events.map encodeMsgJson).flatten)
    [Json.num c.id, Json.arr (c.events.map msgToJson)]
    (by omega) (by omega) hin,
    decodeJsonsF_zero ((encodeChain c).length + 1 - 1) (by omega) []]
  rfl

theorem strsFromJson_map (l : List String) :
    strsFromJson (l.map Json.str) = some l := by
  induction l with
  | nil => rfl
  | cons x xs ih => simp [strsFromJson, ih]

theorem msgFromJson_msgToJson (m : Msg) :
    msgFromJson (msgToJson m) = some m := by
  simp [msgToJson, msgFromJson, strsFromJson_map]

theorem msgsFromJson_map (l : List Msg) :
    msgsFromJson (l.map msgToJson) = some l := by
  induction l with
  | nil => rfl
  | cons m ms ih => simp [msgsFromJson, msgFromJson_msgToJson, ih]

theorem chainFromJson_chainToJson (c : EventChain) :
    chainFromJson (chainToJson c) = some c := by
  simp [chainToJson, chainFromJson, msgsFromJson_map]

/-- Serialization of an event chain round-trips through the loader
(JSON.parse then EventChain.from), the serialize / load contract of spec
section 4.2. -/
theorem decodeChainTop_encodeChain (c : EventChain) :
    decodeChainTop (encodeChain c) = some c := by
  unfold decodeChainTop
  rw [jsonParse_encodeChain]
  simp [chainFromJson_chainToJson c]

theorem find?_setEntries_self (l : List ZipEntry) (n : String) (b : Bytes)
    (h : l.any (fun e => e.name == n) = true) :
    (l.map fun e => if e.name == n then (⟨n, false, b⟩ : ZipEntry) else e).find?
      (fun e => !e.dir && e.name == n) = some ⟨n, false, b⟩ := by
  induction l with
  | nil => simp at h
  | cons e l ih =>
    by_cases he : (e.name == n) = true
    · rw [List.map_cons, if_pos he]
      simp [List.find?_cons]
    · have h' : l.any (fun e => e.name == n) = true := by
        simp only [List.any_cons, Bool.or_eq_true] at h
        rcases h with h | h
        · exact absurd h he
        · exact h
      have hef : (e.name == n) = false := Bool.eq_false_iff.mpr he
      rw [List.map_cons, if_neg he]
      simp only [List.find?_cons, hef, Bool.and_false, ih h']

theorem find?_entries_none (l : List ZipEntry) (n : String)
    (h : l.any (fun e => e.name == n) = false) :
    l.find? (fun e => !e.dir && e.name == n) = none := by
  refine List.find?_eq_none.mpr fun e he => ?_
  have : (e.name == n) = false := by
    by_contra hc
    have : l.any (fun e => e.name == n) = true :=
      List.any_eq_true.mpr ⟨e, he, Bool.of_not_eq_false hc⟩
    rw [this] at h
    exact Bool.true_eq_false.mp h
  simp [this]

theorem zipSet_any_true (z : Zip) (n : String) (b : Bytes)
    (h : z.entries.any (fun e => e.name == n) = true) :
    zipSet z n b =
      ⟨z.entries.map fun e => if e.name == n then ⟨n, false, b⟩ else e⟩ := by
  unfold zipSet
  rw [if_pos h]

theorem zipSet_any_false (z : Zip) (n : String) (b : Bytes)
    (h : ¬z.entries.any (fun e => e.name == n) = true) :
    zipSet z n b = ⟨z.entries ++ [⟨n, false, b⟩]⟩ := by
  unfold zipSet
  rw [if_neg h]

theorem zipLookup_zipSet_self (z : Zip) (n : String) (b : Bytes) :
    zipLookup (zipSet z n b) n = some b := by
  by_cases h : z.entries.any (fun e => e.name == n) = true
  · rw [zipSet_any_true z n b h]
    unfold zipLookup
    rw [find?_setEntries_self _ _ _ h]
    rfl
  · rw [zipSet_any_false z n b h]
    unfold zipLookup
    have hnone := find?_entries_none z.entries n (Bool.eq_false_iff.mpr h)
    show ((z.entries ++ [(⟨n, false, b⟩ : ZipEntry)]).find?
      (fun e => !e.dir && e.name == n)).map ZipEntry.content = some b
    rw [List.find?_append, hnone, Option.none_or]
    simp [List.find?_cons]

theorem find?_setEntries_other (l : List ZipEntry) (n m : String) (b : Bytes)
    (hm : m ≠ n) :
    (l.map fun e => if e.name == n then (⟨n, false, b⟩ : ZipEntry) else e).find?
      (fun e => !e.dir && e.name == m) = l.find? (fun e => !e.dir && e.name == m) := by
  have hnm : (n == m) = false := beq_eq_false_iff_ne.mpr (Ne.symm hm)
  induction l with
  | nil => rfl
  | cons e l ih =>
    by_cases he : (e.name == n) = true
    · have hen : e.name = n := eq_of_beq he
      have hemf : (e.name == m) = false := by rw [hen]; exact hnm
      rw [List.map_cons, if_pos he]
      simp only [List.find?_cons, hemf, hnm, Bool.and_false, Bool.not_false,
        Bool.true_and, ih]
    · rw [List.map_cons, if_neg he]
      by_cases hp : (!e.dir && e.name == m) = true
      · simp only [List.find?_cons, hp]
      · have hpf : (!e.dir && e.name == m) = false := Bool.eq_false_iff.mpr hp
        simp only [List.find?_cons, hpf, ih]

theorem zipLookup_zipSet_other (z : Zip) (n m : String) (b : Bytes) (hm : m ≠ n) :
    zipLookup (zipSet z n b) m = zipLookup z m := by
  by_cases h : z.entries.any (fun e => e.name == n) = true
  · rw [zipSet_any_true z n b h]
    unfold zipLookup
    rw [find?_setEntries_other _ _ _ _ hm]
  · rw [zipSet_any_false z n b h]
    unfold zipLookup
    show ((z.entries ++ [(⟨n, false, b⟩ : ZipEntry)]).find?
        (fun e => !e.dir && e.name == m)).map ZipEntry.content =
      (z.entries.find? (fun e => !e.dir && e.name == m)).map ZipEntry.content
    rw [List.find?_append]
    have hlast : ([(⟨n, false, b⟩ : ZipEntry)].find?
        fun e => !e.dir && e.name == m) = none := by
      simp [List.find?_cons, beq_eq_false_iff_ne.mpr (Ne.symm hm)]
    rw [hlast, Option.or_none]

theorem createEvent_none_eq (nonce : Nat) (pcid nid : String) (kw : List String) :
    createEventAndChainJson nonce pcid nid kw none =
      Except.ok ⟨⟨nonce, [⟨"execute_msg.json", nonce, pcid, nid, kw⟩]⟩, 1, 1⟩ := rfl

theorem createEvent_json_fail (nonce : Nat) (pcid nid : String) (kw : List String)
    (j : Json) (hj : chainFromJson j = none) :
    createEventAndChainJson nonce pcid nid kw (some j) =
      Except.error "ChainParseError" := by
  simp only [createEventAndChainJson, hj]

theorem createEvent_some_eq (nonce : Nat) (pcid nid : String) (kw : List String)
    (j : Json) (c : EventChain) (hj : chainFromJson j = some c) :
    createEventAndChainJson nonce pcid nid kw (some j) =
      if c.events.length = 0 then
        Except.error "TypeError: Cannot read properties of undefined"
      else
        Except.ok ⟨⟨c.id, c.events ++ [⟨"execute_msg.json", c.id, pcid, nid, kw⟩]⟩,
          1, 1⟩ := by
  simp only [createEventAndChainJson, hj]
  have hlen : (c.addEvent ⟨"execute_msg.json", c.id, pcid, nid, kw⟩).events.length
      = c.events.length + 1 := by
    simp [EventChain.addEvent]
  by_cases h0 : c.events.length = 0
  · rw [if_pos (by rw [hlen]; omega), if_pos h0]
  · rw [if_neg (by rw [hlen]; omega), if_neg h0]
    have hd : (c.addEvent ⟨"execute_msg.json", c.id, pcid, nid, kw⟩).events.drop
        ((c.addEvent ⟨"execute_msg.json", c.id, pcid, nid, kw⟩).events.length - 1)
        = [⟨"execute_msg.json", c.id, pcid, nid, kw⟩] := by
      simp [EventChain.addEvent]
    rw [hd]
    rfl

theorem createEvent_ok (nonce : Nat) (pcid nid : String) (kw : List String)
    (ec : Option Json) (out : IterOut)
    (h : createEventAndChainJson nonce pcid nid kw ec = Except.ok out) :
    (∃ m, out.chainJson.events = initialEvents ec ++ [m]) ∧
      out.anchorCalls = 1 ∧ out.anchorsCount = 1 := by
  cases ec with
  | none =>
    rw [createEvent_none_eq] at h
    cases h
    exact ⟨⟨_, rfl⟩, rfl, rfl⟩
  | some j =>
    cases hcj : chainFromJson j with
    | none =>
      rw [createEvent_json_fail nonce pcid nid kw j hcj] at h
      cases h
    | some c =>
      rw [createEvent_some_eq nonce pcid nid kw j c hcj] at h
      by_cases h0 : c.events.length = 0
      · rw [if_pos h0] at h
        cases h
      · rw [if_neg h0] at h
        cases h
        refine ⟨⟨⟨"execute_msg.json", c.id, pcid, nid, kw⟩, ?_⟩, rfl, rfl⟩
        simp only [initialEvents, hcj]

theorem stepIter_ok (cfg : Config) (md : Metadata) (i : Nat) (t t1 : Trace)
    (h : stepIter cfg md i t = Except.ok t1) :
    ∃ c, (∃ m, c.events = initialEvents md.existingChain ++ [m]) ∧
      t1.persisted = t.persisted ++ [c] ∧
      t1.anchorCalls = t.anchorCalls + 1 ∧
      t1.anchorsSubmitted = t.anchorsSubmitted + 1 ∧
      t1.deliveryCalls = t.deliveryCalls + (if cfg.relayNonempty then 1 else 0) ∧
      t1.insufficientBalance = t.insufficientBalance ∧
      t1.thumbnail = t.thumbnail ∧
      t1.finalZip = addChainJsonToZip t.finalZip c := by
  unfold stepIter at h
  cases hce : createEventAndChainJson (cfg.chainNonce i) cfg.packageCID
      cfg.networkId md.keywords md.existingChain with
  | error e => rw [hce] at h; cases h
  | ok out =>
    rw [hce] at h
    cases h
    obtain ⟨hev, hac, han⟩ := createEvent_ok _ _ _ _ _ _ hce
    exact ⟨out.chainJson, hev, rfl, by rw [hac], by rw [han], rfl, rfl, rfl, rfl⟩

theorem runFrom_ok_inv (cfg : Config) (md : Metadata) (n : Nat) :
    ∀ (i : Nat) (t t' : Trace), runFrom cfg md i n t = Except.ok t' →
      (∀ c ∈ t.persisted, ∃ m, c.events = initialEvents md.existingChain ++ [m]) →
      (∀ c, t.persisted.getLast? = some c →
        zipLookup t.finalZip "chain.json" = some (encodeChain c)) →
      ((∀ c ∈ t'.persisted, ∃ m, c.events = initialEvents md.existingChain ++ [m]) ∧
        (∀ c, t'.persisted.getLast? = some c →
          zipLookup t'.finalZip "chain.json" = some (encodeChain c)) ∧
        t'.anchorCalls = t.anchorCalls + n ∧
        t'.anchorsSubmitted = t.anchorsSubmitted + n ∧
        t'.deliveryCalls = t.deliveryCalls + (if cfg.relayNonempty then n else 0) ∧
        t'.persisted.length = t.persisted.length + n ∧
        t'.insufficientBalance = t.insufficientBalance ∧
        t'.thumbnail = t.thumbnail) := by
  induction n with
  | zero =>
    intro i t t' h h1 h2
    simp only [runFrom] at h
    cases h
    refine ⟨h1, h2, rfl, rfl, ?_, rfl, rfl, rfl⟩
    by_cases hr : cfg.relayNonempty <;> simp [hr]
  | succ n ih =>
    intro i t t' h h1 h2
    simp only [runFrom] at h
    cases hstep : stepIter cfg md i t with
    | error e => rw [hstep] at h; cases h
    | ok t1 =>
      rw [hstep] at h
      obtain ⟨c, hcev, hpers, hac, han, hdel, hib, hth, hfz⟩ :=
        stepIter_ok cfg md i t t1 hstep
      have h1' : ∀ d ∈ t1.persisted, ∃ m,
          d.events = initialEvents md.existingChain ++ [m] := by
        intro d hd
        rw [hpers] at hd
        rcases List.mem_append.mp hd with hd | hd
        · exact h1 d hd
        · rw [List.mem_singleton.mp hd]
          exact hcev
      have h2' : ∀ d, t1.persisted.getLast? = some d →
          zipLookup t1.finalZip "chain.json" = some (encodeChain d) := by
        intro d hd
        rw [hpers, List.getLast?_concat] at hd
        cases hd
        rw [hfz]
        exact zipLookup_zipSet_self _ _ _
      obtain ⟨g1, g2, g3, g4, g5, g6, g7, g8⟩ := ih (i + 1) t1 t' h h1' h2'
      refine ⟨g1, g2, ?_, ?_, ?_, ?_, ?_, ?_⟩
      · rw [g3, hac]; omega
      · rw [g4, han]; omega
      · rw [g5, hdel]
        cases hr : cfg.relayNonempty
        · simp [hr]
        · simp [hr]
          omega
      · rw [g6, hpers]; simp; omega
      · rw [g7, hib]
      · rw [g8, hth]

theorem transfer_ok_run (cfg : Config) (md : Metadata) (t : Trace)
    (hmd : extractMetadata cfg.zip cfg.sharpEnc = Except.ok md)
    (hrun : transfer cfg = Except.ok t) :
    (cfg.balance < (cfg.transferCount : ℚ) * LTO_FEE ∧
      t = { insufficientBalance := true, persisted := [], anchorCalls := 0,
            anchorsSubmitted := 0, deliveryCalls := 0, thumbnail := md.thumbnail,
            finalZip := cfg.zip }) ∨
    (¬cfg.balance < (cfg.transferCount : ℚ) * LTO_FEE ∧
      runFrom cfg md 0 cfg.transferCount
        { insufficientBalance := false, persisted := [], anchorCalls := 0,
          anchorsSubmitted := 0, deliveryCalls := 0, thumbnail := md.thumbnail,
          finalZip := cfg.zip } = Except.ok t) := by
  unfold transfer at hrun
  cases hfz : findZipFile cfg.cwd cfg.cwdFiles with
  | error e => rw [hfz] at hrun; cases hrun
  | ok p =>
    rw [hfz, hmd] at hrun
    have hrun2 : (if cfg.balance < (cfg.transferCount : ℚ) * LTO_FEE then
          Except.ok (⟨true, [], 0, 0, 0, md.thumbnail, cfg.zip⟩ : Trace)
        else runFrom cfg md 0 cfg.transferCount
          ⟨false, [], 0, 0, 0, md.thumbnail, cfg.zip⟩) = Except.ok t := hrun
    by_cases hb : cfg.balance < (cfg.transferCount : ℚ) * LTO_FEE
    · rw [if_pos hb] at hrun2
      cases hrun2
      exact Or.inl ⟨hb, rfl⟩
    · rw [if_neg hb] at hrun2
      exact Or.inr ⟨hb, hrun2⟩

theorem filter_setEntries (l : List ZipEntry) (n : String) (b : Bytes)
    (hex : shouldExclude n excludePatterns = true) :
    (l.map fun e => if e.name == n then (⟨n, false, b⟩ : ZipEntry) else e).filter
      (fun e => !e.dir && !shouldExclude e.name excludePatterns) =
    l.filter (fun e => !e.dir && !shouldExclude e.name excludePatterns) := by
  induction l with
  | nil => rfl
  | cons e l ih =>
    rw [List.map_cons]
    by_cases he : (e.name == n) = true
    · have hen : e.name = n := eq_of_beq he
      rw [if_pos he]
      have h1 : ((!(⟨n, false, b⟩ : ZipEntry).dir) &&
          !shouldExclude (⟨n, false, b⟩ : ZipEntry).name excludePatterns) = false := by
        simp [hex]
      have h2 : (!e.dir && !shouldExclude e.name excludePatterns) = false := by
        rw [hen]
        simp [hex]
      rw [List.filter_cons, List.filter_cons, h1, h2]
      simp only [Bool.false_eq_true, if_false, ih]
    · rw [if_neg he]
      by_cases hp : (!e.dir && !shouldExclude e.name excludePatterns) = true
      · rw [List.filter_cons, List.filter_cons, hp]
        simp only [if_true, ih]
      · have hpf : (!e.dir && !shouldExclude e.name excludePatterns) = false :=
          Bool.eq_false_iff.mpr hp
        rw [List.filter_cons, List.filter_cons, hpf]
        simp only [Bool.false_eq_true, if_false, ih]

theorem cidFiles_zipSet (z : Zip) (n : String) (b : Bytes)
    (hex : shouldExclude n excludePatterns = true) :
    cidFiles (zipSet z n b) = cidFiles z := by
  by_cases h : z.entries.any (fun e => e.name == n) = true
  · rw [zipSet_any_true z n b h]
    unfold cidFiles
    rw [filter_setEntries z.entries n b hex]
  · rw [zipSet_any_false z n b h]
    unfold cidFiles
    rw [List.filter_append]
    have hone : ([(⟨n, false, b⟩ : ZipEntry)].filter
        fun e => !e.dir && !shouldExclude e.name excludePatterns) = [] := by
      rw [List.filter_cons]
      simp [hex]
    rw [hone, List.append_nil]

theorem transfer_eq_branches (cfg : Config) (md : Metadata) (p : String)
    (hfz : findZipFile cfg.cwd cfg.cwdFiles = Except.ok p)
    (hmd : extractMetadata cfg.zip cfg.sharpEnc = Except.ok md) :
    transfer cfg =
      if cfg.balance < (cfg.transferCount : ℚ) * LTO_FEE then
        Except.ok ⟨true, [], 0, 0, 0, md.thumbnail, cfg.zip⟩
      else
        runFrom cfg md 0 cfg.transferCount
          ⟨false, [], 0, 0, 0, md.thumbnail, cfg.zip⟩ := by
  unfold transfer
  rw [hfz, hmd]

theorem transfer_cfgA_eq : transfer cfgA = Except.ok traceA := by
  rw [transfer_eq_branches cfgA mdA "/work/demo.zip" rfl rfl,
    if_neg (by norm_num [cfgA, LTO_FEE])]
  rfl

theorem transfer_cfgB_eq : transfer cfgB = Except.ok traceB := by
  rw [transfer_eq_branches cfgB mdA "/work/demo.zip" rfl rfl,
    if_neg (by norm_num [cfgB, cfgA, LTO_FEE])]
  rfl

theorem transfer_cfg6_eq : transfer cfg6 = Except.ok t6 := by
  rw [transfer_eq_branches cfg6 mdA "/work/demo.zip" rfl rfl,
    if_pos (by norm_num [cfg6, cfgA, LTO_FEE])]
  rfl

/-- C1 counterexample: on the Scenario A run (demo manifest, no chain.json,
transfer_count = 1) the code makes one anchoring call carrying exactly one
anchor, one delivery call, and appends exactly one event, and the output
package's chain.json decodes to a chain with one event — not the two events
and two anchors the claim states. -/
theorem c1_counterexample :
    ((transfer cfgA).map fun t =>
        (t.anchorCalls, t.anchorsSubmitted, t.deliveryCalls,
          t.persisted.map fun c => c.events.length,
          ((zipLookup t.finalZip "chain.json").bind decodeChainTop).map
            fun c => c.events.length))
      = Except.ok (1, 1, 1, [1], some 1) ∧ (1 : Nat) ≠ 2 :=
  ⟨by rw [transfer_cfgA_eq]; rfl, by decide⟩

/-- C1 (amended): on a run over a package with no prior chain state and
transfer_count = 1, the iteration appends exactly one event to a fresh chain
(no separate create event), one anchoring call is made carrying 1 anchor, one
delivery call is made, and the output package's chain.json holds that
one-event chain. -/
theorem c1_amended (cfg : Config) (md : Metadata) (t : Trace)
    (hmd : extractMetadata cfg.zip cfg.sharpEnc = Except.ok md)
    (hchain : md.existingChain = none)
    (hcount : cfg.transferCount = 1)
    (hrelay : cfg.relayNonempty = true)
    (hrun : transfer cfg = Except.ok t)
    (hib : t.insufficientBalance = false) :
    t.anchorCalls = 1 ∧ t.anchorsSubmitted = 1 ∧ t.deliveryCalls = 1 ∧
    ∃ c, t.persisted = [c] ∧ c.events.length = 1 ∧
      zipLookup t.finalZip "chain.json" = some (encodeChain c) ∧
      decodeChainTop (encodeChain c) = some c := by
  rcases transfer_ok_run cfg md t hmd hrun with ⟨hb, ht⟩ | ⟨hb, hrf⟩
  · rw [ht] at hib
    simp at hib
  · rw [hcount] at hrf
    obtain ⟨g1, g2, g3, g4, g5, g6, _, _⟩ :=
      runFrom_ok_inv cfg md 1 0 _ t hrf
        (fun c hc => absurd hc (List.not_mem_nil c))
        (fun c hc => by simp at hc)
    rw [hrelay] at g5
    simp only [Nat.zero_add, if_true, List.length_nil] at g3 g4 g5 g6
    obtain ⟨c, hc⟩ := List.length_eq_one.mp g6
    have hmem : c ∈ t.persisted := by
      rw [hc]
      exact List.mem_singleton_self c
    obtain ⟨m, hm⟩ := g1 c hmem
    rw [hchain] at hm
    simp only [initialEvents, List.nil_append] at hm
    have hlast : t.persisted.getLast? = some c := by
      rw [hc]
      rfl
    exact ⟨g3, g4, g5, c, hc, by rw [hm]; rfl, g2 c hlast,
      decodeChainTop_encodeChain c⟩

/-- C1 amended, witnessed on the concrete Scenario A run. -/
theorem c1_amended_witness :
    traceA.anchorCalls = 1 ∧ traceA.anchorsSubmitted = 1 ∧
    traceA.deliveryCalls = 1 ∧
    ∃ c, traceA.persisted = [c] ∧ c.events.length = 1 ∧
      zipLookup traceA.finalZip "chain.json" = some (encodeChain c) ∧
      decodeChainTop (encodeChain c) = some c :=
  c1_amended cfgA mdA traceA rfl rfl rfl rfl transfer_cfgA_eq rfl

/-- C2 counterexample: on the two-transfer run over the demo package both
iterations persist a one-event chain, so iteration 2 does not extend the
chain state produced by iteration 1 (that would need a two-event chain). -/
theorem c2_counterexample :
    ((transfer cfgB).map fun t => t.persisted.map fun c => c.events.length)
      = Except.ok [1, 1] ∧ ¬(1 : Nat) = 1 + 1 :=
  ⟨by rw [transfer_cfgB_eq]; rfl, by decide⟩

/-- C2 (amended): every iteration rebuilds its chain from the chain state
extracted at startup — the same value each time — and appends exactly one
event to it, and after each iteration the resulting chain is persisted into
the in-memory package's chain.json; iterations therefore do not extend one
another's output. -/
theorem c2_amended (cfg : Config) (md : Metadata) (t : Trace)
    (hmd : extractMetadata cfg.zip cfg.sharpEnc = Except.ok md)
    (hrun : transfer cfg = Except.ok t) :
    (∀ c ∈ t.persisted, ∃ m, c.events = initialEvents md.existingChain ++ [m]) ∧
    (∀ c, t.persisted.getLast? = some c →
      zipLookup t.finalZip "chain.json" = some (encodeChain c)) := by
  rcases transfer_ok_run cfg md t hmd hrun with ⟨hb, ht⟩ | ⟨hb, hrf⟩
  · rw [ht]
    refine ⟨fun c hc => absurd hc (List.not_mem_nil c), fun c hc => ?_⟩
    simp at hc
  · obtain ⟨g1, g2, _⟩ :=
      runFrom_ok_inv cfg md cfg.transferCount 0 _ t hrf
        (fun c hc => absurd hc (List.not_mem_nil c))
        (fun c hc => by simp at hc)
    exact ⟨g1, g2⟩

/-- C2 amended, witnessed on the concrete two-transfer run. -/
theorem c2_amended_witness :
    (∀ c ∈ traceB.persisted, ∃ m,
      c.events = initialEvents mdA.existingChain ++ [m]) ∧
    (∀ c, traceB.persisted.getLast? = some c →
      zipLookup traceB.finalZip "chain.json" = some (encodeChain c)) :=
  c2_amended cfgB mdA traceB rfl transfer_cfgB_eq

/-- C4: the CID of a package is invariant under any permutation of its entry
iteration order, and rewriting a volatile entry (chain.json or any entry the
exclusion patterns match, dotfiles included) leaves the CID unchanged. -/
theorem c4_cid_determinism :
    (∀ z1 z2 : Zip, z1.entries.Perm z2.entries →
      calculateZipCID z1 = calculateZipCID z2) ∧
    (∀ (z : Zip) (name : String) (content : Bytes),
      shouldExclude name excludePatterns = true →
      calculateZipCID (zipSet z name content) = calculateZipCID z) := by
  constructor
  · intro z1 z2 h
    have hp : (cidFiles z1).Perm (cidFiles z2) :=
      List.Perm.map _ (List.Perm.filter _ h)
    have hl : (cidFiles z1).length = (cidFiles z2).length := hp.length_eq
    unfold calculateZipCID
    by_cases h0 : (cidFiles z1).length = 0
    · rw [if_pos h0, if_pos (by rw [← hl]; exact h0)]
    · rw [if_neg h0, if_neg (by rw [← hl]; exact h0)]
      have hcid : importerCID (cidFiles z1) = importerCID (cidFiles z2) := by
        unfold importerCID
        exact Multiset.coe_eq_coe.mpr hp
      rw [hcid]
  · intro z name content hex
    unfold calculateZipCID
    rw [cidFiles_zipSet z name content hex]

/-- C4, witnessed: a concrete permutation of a two-entry package, and a
concrete chain.json rewrite, leave the CID unchanged. -/
theorem c4_cid_determinism_witness :
    calculateZipCID ⟨[⟨"a.txt", false, [1]⟩, ⟨"b.txt", false, [2]⟩]⟩
      = calculateZipCID ⟨[⟨"b.txt", false, [2]⟩, ⟨"a.txt", false, [1]⟩]⟩ ∧
    calculateZipCID (zipSet demoZip "chain.json" [9])
      = calculateZipCID demoZip :=
  ⟨c4_cid_determinism.1 _ _ (by decide),
   c4_cid_determinism.2 demoZip "chain.json" [9] (by decide)⟩

/-- C5 counterexample: when every rung of the quality ladder produces output
over the 256 KiB budget, the quality-40 output is attached to the metadata
anyway, exceeding the budget instead of the thumbnail being omitted. -/
theorem processThumbnail_const (b : Bytes) (h : b.length > thumbnailBudget) :
    processThumbnail (fun _ => some b) = some b := by
  simp [processThumbnail, h]

theorem bigBytes_big : bigBytes.length > thumbnailBudget := by
  simp only [bigBytes, thumbnailBudget, List.length_replicate]
  omega

theorem c5_counterexample :
    ((extractMetadata zipC5 sharpBig).map fun md => md.thumbnail)
      = Except.ok (some bigBytes) ∧ bigBytes.length > 256 * 1024 := by
  constructor
  · have hmd5 : extractMetadata zipC5 sharpBig =
        Except.ok ⟨"demo", "", [], processThumbnail (sharpBig [0]), none⟩ := rfl
    have hth : processThumbnail (sharpBig [0]) = some bigBytes :=
      processThumbnail_const bigBytes bigBytes_big
    rw [hmd5]
    simp only [Except.map]
    rw [hth]
  · have := bigBytes_big
    simp only [thumbnailBudget] at this
    omega

/-- C5 (amended): the attached thumbnail is the first quality-80 or
quality-60 output within the 256 KiB budget, and otherwise the quality-40
output regardless of its size — so a delivered thumbnail within budget is
only guaranteed when the ladder did not fall through to its last rung; and
thumbnail processing never affects whether metadata extraction succeeds. -/
theorem c5_amended :
    (∀ (enc : Nat → Option Bytes) (b : Bytes), processThumbnail enc = some b →
      b.length ≤ thumbnailBudget ∨ enc 40 = some b) ∧
    (∀ (z : Zip) (s1 s2 : Bytes → Nat → Option Bytes),
      (extractMetadata z s1).isOk = (extractMetadata z s2).isOk) := by
  constructor
  · intro enc b h
    cases h80 : enc 80 with
    | none =>
      simp only [processThumbnail, h80] at h
      cases h
    | some p80 =>
      simp only [processThumbnail, h80] at h
      by_cases hb80 : p80.length > thumbnailBudget
      · rw [if_pos hb80] at h
        cases h60 : enc 60 with
        | none =>
          simp only [h60] at h
          cases h
        | some p60 =>
          simp only [h60] at h
          by_cases hb60 : p60.length > thumbnailBudget
          · rw [if_pos hb60] at h
            cases h40 : enc 40 with
            | none =>
              simp only [h40] at h
              cases h
            | some p40 =>
              simp only [h40] at h
              cases h
              exact Or.inr rfl
          · rw [if_neg hb60] at h
            cases h
            exact Or.inl (Nat.le_of_not_lt hb60)
      · rw [if_neg hb80] at h
        cases h
        exact Or.inl (Nat.le_of_not_lt hb80)
  · intro z s1 s2
    cases hpk : zipLookup z "package.json" with
    | some b =>
      cases hd : decodePkgTop b with
      | none => simp only [extractMetadata, hpk, hd]
      | some p =>
        simp only [extractMetadata, hpk, hd]
        rfl
    | none =>
      cases hf : z.entries.find? (fun e => strToLower e.name == "package.json") with
      | some e => simp only [extractMetadata, hpk, hf]
      | none => simp only [extractMetadata, hpk, hf]

/-- C5 amended, witnessed: a one-byte within-budget encoding is kept as is,
and extraction success is unaffected by the choice of thumbnail pipeline. -/
theorem c5_amended_witness :
    (([1] : Bytes).length ≤ thumbnailBudget ∨
      (fun _ => some ([1] : Bytes)) 40 = some [1]) ∧
    ((extractMetadata demoZip fun _ _ => none).isOk
      = (extractMetadata demoZip fun _ _ => some [2]).isOk) :=
  ⟨c5_amended.1 (fun _ => some [1]) [1] rfl,
   c5_amended.2 demoZip (fun _ _ => none) (fun _ _ => some [2])⟩

/-- C6: when the available balance is strictly below transferCount * LTO_FEE,
the run stops at the balance gate reporting the insufficiency: no anchoring
call, no anchors, no delivery call, no chain is ever built or persisted, and
the package is left untouched. -/
theorem c6_balance_gate (cfg : Config) (t : Trace)
    (hbal : cfg.balance < (cfg.transferCount : ℚ) * LTO_FEE)
    (hrun : transfer cfg = Except.ok t) :
    t.insufficientBalance = true ∧ t.anchorCalls = 0 ∧ t.anchorsSubmitted = 0 ∧
      t.deliveryCalls = 0 ∧ t.persisted = [] ∧ t.finalZip = cfg.zip := by
  unfold transfer at hrun
  cases hfz : findZipFile cfg.cwd cfg.cwdFiles with
  | error e => rw [hfz] at hrun; cases hrun
  | ok p =>
    rw [hfz] at hrun
    cases hmd : extractMetadata cfg.zip cfg.sharpEnc with
    | error e => rw [hmd] at hrun; cases hrun
    | ok md =>
      rw [hmd] at hrun
      have hrun2 : (if cfg.balance < (cfg.transferCount : ℚ) * LTO_FEE then
            Except.ok (⟨true, [], 0, 0, 0, md.thumbnail, cfg.zip⟩ : Trace)
          else runFrom cfg md 0 cfg.transferCount
            ⟨false, [], 0, 0, 0, md.thumbnail, cfg.zip⟩) = Except.ok t := hrun
      rw [if_pos hbal] at hrun2
      cases hrun2
      exact ⟨rfl, rfl, rfl, rfl, rfl, rfl⟩

/-- C6, witnessed on the zero-balance run over the demo package. -/
theorem c6_balance_gate_witness :
    t6.insufficientBalance = true ∧ t6.anchorCalls = 0 ∧
      t6.anchorsSubmitted = 0 ∧ t6.deliveryCalls = 0 ∧ t6.persisted = [] ∧
      t6.finalZip = cfg6.zip :=
  c6_balance_gate cfg6 t6 (by norm_num [cfg6, cfgA, LTO_FEE]) transfer_cfg6_eq

/-- C7 counterexample: repackaging writes no timestamp.txt entry — the demo
package has none, and after addChainJsonToZip it still has none. -/
theorem c7_counterexample :
    zipLookup demoZip "timestamp.txt" = none ∧
    zipLookup (addChainJsonToZip demoZip chainZero) "timestamp.txt" = none :=
  ⟨rfl, rfl⟩

/-- C7 (amended): repackaging replaces or inserts exactly the chain.json
entry — which afterwards holds the serialized chain — and preserves every
other entry byte for byte; no timestamp.txt entry is written. -/
theorem c7_amended (z : Zip) (c : EventChain) (n : String)
    (hn : n ≠ "chain.json") :
    zipLookup (addChainJsonToZip z c) "chain.json" = some (encodeChain c) ∧
    zipLookup (addChainJsonToZip z c) n = zipLookup z n :=
  ⟨zipLookup_zipSet_self z "chain.json" (encodeChain c),
   zipLookup_zipSet_other z "chain.json" n (encodeChain c) hn⟩

/-- C7 amended, witnessed on the demo package. -/
theorem c7_amended_witness :
    zipLookup (addChainJsonToZip demoZip chainZero) "chain.json"
      = some (encodeChain chainZero) ∧
    zipLookup (addChainJsonToZip demoZip chainZero) "package.json"
      = zipLookup demoZip "package.json" :=
  c7_amended demoZip chainZero "package.json" (by decide)

/-- C8 counterexample: with two candidate archives in the directory the
locator does not fail with an ambiguity error; it returns the first. -/
theorem c8_counterexample :
    findZipFile "/w" ["a.zip", "b.zip"] = Except.ok "/w/a.zip" ∧
    strEndsWith "a.zip" ".zip" = true ∧ strEndsWith "b.zip" ".zip" = true :=
  ⟨rfl, rfl, rfl⟩

/-- C8 (amended): locating the archive fails exactly when no directory entry
ends in ".zip"; whenever at least one candidate exists — however many — it
returns the path of the first candidate. -/
theorem c8_amended (cwd : String) (files : List String) :
    ((∀ f ∈ files, ¬strEndsWith f ".zip" = true) →
      findZipFile cwd files
        = Except.error "No ZIP file found in current directory") ∧
    (∀ f ∈ files, strEndsWith f ".zip" = true →
      ∃ g, g ∈ files ∧ strEndsWith g ".zip" = true ∧
        findZipFile cwd files = Except.ok (cwd ++ "/" ++ g)) := by
  constructor
  · intro h
    unfold findZipFile
    rw [List.find?_eq_none.mpr h]
  · intro f hf hzf
    cases hfind : files.find? (fun f => strEndsWith f ".zip") with
    | none =>
      exact absurd hzf (List.find?_eq_none.mp hfind f hf)
    | some g =>
      have hg : strEndsWith g ".zip" = true :=
        @List.find?_some _ (fun f => strEndsWith f ".zip") g files hfind
      refine ⟨g, List.mem_of_find?_eq_some hfind, hg, ?_⟩
      unfold findZipFile
      rw [hfind]

/-- C8 amended, witnessed: a directory with no archive fails, and a directory
with two archives yields the first. -/
theorem c8_amended_witness :
    findZipFile "/w" ["notes.txt"]
      = Except.error "No ZIP file found in current directory" ∧
    ∃ g, g ∈ ["a.zip", "b.zip"] ∧ strEndsWith g ".zip" = true ∧
      findZipFile "/w" ["a.zip", "b.zip"] = Except.ok ("/w" ++ "/" ++ g) :=
  ⟨(c8_amended "/w" ["notes.txt"]).1 (by decide),
   (c8_amended "/w" ["a.zip", "b.zip"]).2 "a.zip" (by decide) (by decide)⟩

/-- C9: when the manifest entry is present only under a case-variant name,
the source finds it case-insensitively but then assigns to the const
packageJsonFile binding, so extraction throws a TypeError instead of using
the discovered casing. -/
theorem c9_const_assignment_bug :
    (zipC9.entries.find? fun e => strToLower e.name == "package.json").isSome
      = true ∧
    extractMetadata zipC9 (fun _ _ => none)
      = Except.error "TypeError: Assignment to constant variable." :=
  ⟨rfl, rfl⟩

/-- C10: when package.json parses but lacks the name, description or keywords
fields, extraction succeeds and substitutes the defaults "Ownable", the empty
string and the empty list respectively. -/
theorem c10_missing_fields_default (z : Zip)
    (sharp : Bytes → Nat → Option Bytes) (b : Bytes) (p : PkgJson)
    (hb : zipLookup z "package.json" = some b)
    (hp : decodePkgTop b = some p) :
    ∃ md, extractMetadata z sharp = Except.ok md ∧
      (p.name = none → md.title = "Ownable") ∧
      (p.description = none → md.description = "") ∧
      (p.keywords = none → md.keywords = []) := by
  refine ⟨⟨jsOrStr p.name "Ownable", jsOrStr p.description "",
    jsOrList p.keywords [],
    match zipLookup z "thumbnail.webp" with
    | none => none
    | some tb => processThumbnail (sharp tb),
    match zipLookup z "chain.json" with
    | none => none
    | some cb => jsonParse cb⟩, ?_, ?_, ?_, ?_⟩
  · simp only [extractMetadata, hb, hp]
  · intro h
    rw [show jsOrStr p.name "Ownable" = "Ownable" from by rw [h]; rfl]
  · intro h
    rw [show jsOrStr p.description "" = "" from by rw [h]; rfl]
  · intro h
    rw [show jsOrList p.keywords [] = [] from by rw [h]; rfl]

/-- C10, witnessed on a manifest missing all three fields. -/
theorem c10_missing_fields_default_witness :
    ∃ md, extractMetadata zipC10 (fun _ _ => none) = Except.ok md ∧
      ((⟨none, none, none⟩ : PkgJson).name = none → md.title = "Ownable") ∧
      ((⟨none, none, none⟩ : PkgJson).description = none →
        md.description = "") ∧
      ((⟨none, none, none⟩ : PkgJson).keywords = none → md.keywords = []) :=
  c10_missing_fields_default zipC10 (fun _ _ => none)
    (encodePkg ⟨none, none, none⟩) ⟨none, none, none⟩ rfl rfl

end OwnablesCli
